import Mathlib

/-!
Verification of the streaming archive-ingestion core of pkg-inspector.

Shallow embedding of:
  * src/wasm/tgz-parser/main.go — the Go WASM module: eager extraction
    (`parseTar`), lazy indexing with a tee and a byte counter
    (`indexTgzStream`), on-demand range reads (`readFileContent`), and the
    JS-facing entry points (`__wasm_parseTgz`, `__wasm_fetchAndParseTgz`,
    `__wasm_indexTgz`).
  * src/src/lib/tar-store.ts — the host-side `TarStore` (appendChunk /
    finalize / readFile / dispose) over a Blob built from forwarded chunks.

Modelling conventions:
  * Bytes are `Nat` (values < 256 in all real inputs); byte streams are
    `List Nat`; Go strings are kept as raw byte lists.
  * The gzip layer is modelled as the identity: all functions receive the
    already-decompressed tar stream.  None of the verified claims depend on
    compression itself; the in-memory size gate of `__wasm_parseTgz` tests
    the length of its input array exactly as the Go code does.
  * The Go standard library `archive/tar` reader is embedded for the plain
    (v7 / ustar) subset actually exercised by this application: header
    checksum verification (signed and unsigned), octal numeric fields,
    NUL-terminated names, ustar name joining, the two-zero-block
    end-of-archive rule, clean EOF at an entry boundary, and the internal
    read-error latch (`Reader.err`) that makes a failed drain resurface at
    the next call to `Next`.  Outside the modelled scope (mapped to
    `TErr.unmodelled`, so that archives using them simply fall outside all
    success-conditioned theorems): PAX / GNU meta entries (typeflags
    x, g, L, K), GNU sparse entries (S), the legacy all-NUL typeflag, and
    base-256 numeric fields.
  * JS promise plumbing carries no logic and is dropped; a JS rejection is
    an `Except.error`.
-/

set_option maxRecDepth 100000

deriving instance DecidableEq for Except

/-- Constant from main.go: skip content for files larger than 512 KiB. -/
def maxFileContentSize : Nat := 512 * 1024

/-- Constant from main.go: reject archives exceeding 100 MiB. -/
def maxTotalSize : Nat := 100 * 1024 * 1024

/-- Constant from main.go: number of leading bytes inspected by the binary sniff. -/
def binaryCheckSize : Nat := 512

/-- Continuation-byte test of Go's unicode/utf8 tables: 0x80 ≤ c ≤ 0xBF. -/
def contOk (c : Nat) : Bool := decide (0x80 ≤ c) && decide (c ≤ 0xBF)

/-- Embedding of Go's `utf8.Valid`: the byte list decodes as well-formed
UTF-8 (no overlong forms, no surrogates, nothing above U+10FFFF, and a
multi-byte sequence truncated at the end of the list is invalid). -/
def utf8Valid : List Nat → Bool
  | [] => true
  | b :: rest =>
    if b < 0x80 then utf8Valid rest
    else if b < 0xC2 then false
    else if b ≤ 0xDF then
      match rest with
      | c1 :: r => contOk c1 && utf8Valid r
      | [] => false
    else if b ≤ 0xEF then
      match rest with
      | c1 :: c2 :: r =>
        (if b = 0xE0 then decide (0xA0 ≤ c1) && decide (c1 ≤ 0xBF)
         else if b = 0xED then decide (0x80 ≤ c1) && decide (c1 ≤ 0x9F)
         else contOk c1) && contOk c2 && utf8Valid r
      | _ => false
    else if b ≤ 0xF4 then
      match rest with
      | c1 :: c2 :: c3 :: r =>
        (if b = 0xF0 then decide (0x90 ≤ c1) && decide (c1 ≤ 0xBF)
         else if b = 0xF4 then decide (0x80 ≤ c1) && decide (c1 ≤ 0x8F)
         else contOk c1) && contOk c2 && contOk c3 && utf8Valid r
      | _ => false
    else false

/-- Embedding of `isBinaryContent` (identical in src/wasm/tgz-parser/main.go
and src/wasm/zip-parser/main.go): look at the first
`min (length data) binaryCheckSize` bytes; binary iff a NUL byte occurs
there or that slice is not valid UTF-8. -/
def isBinaryContent (data : List Nat) : Bool :=
  let t := data.take binaryCheckSize
  t.any (fun b => b == 0) || !utf8Valid t

/-- Record produced per entry by eager extraction (Go struct `ParsedFile`).
`path` and `content` are raw byte lists (Go strings). -/
structure ParsedFile where
  path : List Nat
  size : Nat
  isDir : Bool
  content : List Nat
  isBinary : Bool
deriving DecidableEq, Repr

/-- Record produced per entry by the lazy indexing pass (Go struct
`FileIndexEntry`): no content, but the byte offset in the uncompressed tar
where the entry's data block begins. -/
structure FileIndexEntry where
  path : List Nat
  size : Nat
  isDir : Bool
  isBinary : Bool
  offset : Nat
deriving DecidableEq, Repr

/-- Error outcomes of a parse / index run, mirroring the error values the Go
code can surface through its single rejected-promise channel:
`headerBad` = archive/tar `ErrHeader`, `shortRead` = `io.ErrUnexpectedEOF`
(stream ends inside a header, data block or padding), `unmodelled` = header
uses a tar feature outside the modelled scope. -/
inductive TErr where
  | headerBad
  | shortRead
  | unmodelled
deriving DecidableEq, Repr

/-- Parsed v7 header fields that main.go consumes: entry name, declared
size, and the typeflag byte. -/
structure Hdr where
  name : List Nat
  size : Nat
  typeflag : Nat
deriving DecidableEq, Repr

/-- Drop leading and trailing NUL / space bytes, as Go's
`archive/tar` numeric-field parser does before reading octal digits. -/
def octTrim (b : List Nat) : List Nat :=
  ((b.dropWhile (fun c => c == 0x20 || c == 0)).reverse.dropWhile
    (fun c => c == 0x20 || c == 0)).reverse

/-- Cut a field at its first NUL byte (Go's `cString`). -/
def cutNul (b : List Nat) : List Nat := b.takeWhile (fun c => c != 0)

/-- Embedding of archive/tar `parseOctal`: trim NUL/space padding, cut at an
interior NUL, empty means 0, otherwise all remaining bytes must be octal
digits.  Base-256 (GNU) numerics are outside the modelled scope and also
yield `none`. -/
def parseOctal (b : List Nat) : Option Nat :=
  let t := cutNul (octTrim b)
  if t.isEmpty then some 0
  else if t.all (fun c => 0x30 ≤ c && c ≤ 0x37) then
    some (t.foldl (fun a c => a * 8 + (c - 0x30)) 0)
  else none

/-- Checksum input of a 512-byte header block: the block with its checksum
field (bytes 148..155) replaced by spaces, as archive/tar computes it. -/
def chkInput (blk : List Nat) : List Nat :=
  blk.take 148 ++ List.replicate 8 0x20 ++ blk.drop 156

/-- Unsigned header checksum (sum of bytes). -/
def unsignedSum (l : List Nat) : Nat := l.foldl (fun a c => a + c) 0

/-- Signed header checksum (bytes read as int8, as archive/tar also
accepts). -/
def signedSum (l : List Nat) : Int :=
  l.foldl (fun a c => a + (if 0x80 ≤ c then (c : Int) - 256 else (c : Int))) 0

/-- Typeflags for which archive/tar reads no data block
(`isHeaderOnlyType`): link, symlink, char, block, dir, fifo. -/
def isHeaderOnly (flag : Nat) : Bool := 0x31 ≤ flag && flag ≤ 0x36

/-- Typeflags outside the modelled scope: PAX extended headers x/g, GNU long
name/link L/K, GNU sparse S, and the legacy all-NUL flag. -/
def unmodelledFlag (flag : Nat) : Bool :=
  flag == 0x78 || flag == 0x67 || flag == 0x4c || flag == 0x4b ||
  flag == 0x53 || flag == 0x00

/-- Test for the ustar magic "ustar\0" at bytes 257..262 of a header
block. -/
def ustarMagic (blk : List Nat) : Bool :=
  (blk.drop 257).take 6 == [0x75, 0x73, 0x74, 0x61, 0x72, 0x00]

/-- Embedding of archive/tar `readHeader`'s block decoding for one 512-byte
block (callers guarantee the length): verify the checksum (stored octal
value must match the unsigned or the signed sum), require the v7 numeric
fields (mode, uid, gid, size, mtime) to parse, read the name up to its
first NUL, and for ustar blocks additionally require the device fields to
parse and join a non-empty name part from bytes 345..499.
`none` is archive/tar's `ErrHeader`. -/
def parseHeaderBlock (blk : List Nat) : Option Hdr :=
  match parseOctal ((blk.drop 148).take 8) with
  | none => none
  | some ck =>
    if ck = unsignedSum (chkInput blk) ∨ (ck : Int) = signedSum (chkInput blk) then
      match parseOctal ((blk.drop 100).take 8), parseOctal ((blk.drop 108).take 8),
            parseOctal ((blk.drop 116).take 8), parseOctal ((blk.drop 124).take 12),
            parseOctal ((blk.drop 136).take 12) with
      | some _, some _, some _, some size, some _ =>
        let name := cutNul (blk.take 100)
        let flag := blk.getD 156 0
        if ustarMagic blk then
          match parseOctal ((blk.drop 329).take 8), parseOctal ((blk.drop 337).take 8) with
          | some _, some _ =>
            let pre := cutNul ((blk.drop 345).take 155)
            some ⟨if pre.isEmpty then name else pre ++ [0x2f] ++ name, size, flag⟩
          | _, _ => none
        else
          some ⟨name, size, flag⟩
      | _, _, _, _, _ => none
    else none

/-- Result of one `tar.Reader.Next` header step on the stream remaining
after the previous entry's padding: clean end of archive (recording how
many trailing bytes — zero, one or two zero blocks — were consumed and thus
forwarded by the tee), an error, or a decoded header together with the
stream positioned at the entry's data block. -/
inductive HdrRes where
  | atEnd (consumed : Nat)
  | bad (e : TErr)
  | entry (h : Hdr) (rest : List Nat)
deriving DecidableEq, Repr

/-- Test for an all-zero 512-byte block. -/
def isZeroBlock (blk : List Nat) : Bool := blk.all (fun b => b == 0)

/-- Embedding of archive/tar's header-reading step: an empty stream is a
clean EOF (an archive may stop at an entry boundary); a short block is
`io.ErrUnexpectedEOF`; a zero block ends the archive if followed by nothing
or by a second zero block and is `ErrHeader` otherwise; any other block
must decode via `parseHeaderBlock`. -/
def nextHeader (s : List Nat) : HdrRes :=
  if s.length = 0 then .atEnd 0
  else if s.length < 512 then .bad .shortRead
  else if isZeroBlock (s.take 512) then
    if (s.drop 512).length = 0 then .atEnd 512
    else if (s.drop 512).length < 512 then .bad .shortRead
    else if isZeroBlock ((s.drop 512).take 512) then .atEnd 1024
    else .bad .headerBad
  else
    match parseHeaderBlock (s.take 512) with
    | none => .bad .headerBad
    | some h =>
      if unmodelledFlag h.typeflag then .bad .unmodelled
      else .entry h (s.drop 512)

/-- Number of data-plus-padding bytes occupied by an entry of data length
`nb` (tar rounds data up to whole 512-byte blocks). -/
def dataPad (nb : Nat) : Nat := 512 * ((nb + 511) / 512)

/-- Embedding of `parseTar` from main.go, fuel-indexed (fuel strictly
exceeding the stream length always suffices: every iteration consumes at
least one header block).  The extra arguments model `tar.Reader` state at
the top of each loop iteration: `latched` is the reader's sticky error
(`Reader.err`, set when an ignored `io.Copy` drain fails and returned by
the next call to `Next`), `pad` is undrained padding of the previous entry
that `Next` must skip, `s` is the remaining decompressed stream.
Per entry: directories and other non-regular entries are recorded without a
read; a regular file larger than `maxFileContentSize` is marked binary and
its data drained without storing (a failed drain latches); otherwise
exactly `size` bytes are read (a short read aborts immediately), sniffed,
and stored as content unless binary. -/
def parseTarF : Nat → Option TErr → Nat → List Nat → Except TErr (List ParsedFile)
  | 0, _, _, _ => .error .shortRead
  | _ + 1, some e, _, _ => .error e
  | fuel + 1, none, pad, s =>
    if s.length < pad then .error .shortRead
    else
      match nextHeader (s.drop pad) with
      | .atEnd _ => .ok []
      | .bad e => .error e
      | .entry h rest =>
        if !(h.typeflag == 0x35) && h.typeflag == 0x30 then
          if maxFileContentSize < h.size then
            if rest.length < h.size then
              (parseTarF fuel (some .shortRead) 0 []).map
                (fun fs => ⟨h.name, h.size, false, [], true⟩ :: fs)
            else
              (parseTarF fuel none (dataPad h.size - h.size) (rest.drop h.size)).map
                (fun fs => ⟨h.name, h.size, false, [], true⟩ :: fs)
          else
            if rest.length < h.size then .error .shortRead
            else
              (parseTarF fuel none (dataPad h.size - h.size) (rest.drop h.size)).map
                (fun fs =>
                  (if isBinaryContent (rest.take h.size) then ⟨h.name, h.size, false, [], true⟩
                   else ⟨h.name, h.size, false, rest.take h.size, false⟩) :: fs)
        else
          (parseTarF fuel none (dataPad (if isHeaderOnly h.typeflag then 0 else h.size)) rest).map
            (fun fs => ⟨h.name, h.size, h.typeflag == 0x35, [], false⟩ :: fs)

/-- Eager extraction over a decompressed tar stream (`parseTar` in main.go,
reached from `parseTgzBytes` / `parseTgzStream`; the gzip layer is modelled
as the identity). -/
def parseTar (s : List Nat) : Except TErr (List ParsedFile) :=
  parseTarF (s.length + 1) none 0 s

/-- Embedding of `indexTgzStream` from main.go, fuel-indexed like
`parseTarF`.  `pos` is the forwarded-byte counter (`countingWriter.count`
behind the `io.TeeReader`): every byte the tar reader consumes is forwarded
to the JS sink, so the counter always equals total bytes consumed.  The
result carries the index entries and the forwarded byte list (concatenation
of all tee chunks).  A regular entry records `offset := pos` right after
its header is consumed; oversized entries are marked binary and drained;
within-threshold entries are probed with the first
`min size binaryCheckSize` bytes for the sniff and then drained.  As in the
Go code, drain (`io.Copy`) failures are latched while probe
(`io.ReadFull`) failures abort immediately. -/
def indexTgzF : Nat → Option TErr → Nat → Nat → List Nat →
    Except TErr (List FileIndexEntry × List Nat)
  | 0, _, _, _, _ => .error .shortRead
  | _ + 1, some e, _, _, _ => .error e
  | fuel + 1, none, pad, pos, s =>
    if s.length < pad then .error .shortRead
    else
      match nextHeader (s.drop pad) with
      | .atEnd c => .ok ([], s.take pad ++ (s.drop pad).take c)
      | .bad e => .error e
      | .entry h rest =>
        if !(h.typeflag == 0x35) && h.typeflag == 0x30 then
          if maxFileContentSize < h.size then
            if rest.length < h.size then
              (indexTgzF fuel (some .shortRead) 0 (pos + pad + 512 + rest.length) []).map
                (fun r => (⟨h.name, h.size, false, true, pos + pad + 512⟩ :: r.1,
                  s.take pad ++ (s.drop pad).take 512 ++ rest ++ r.2))
            else
              (indexTgzF fuel none (dataPad h.size - h.size) (pos + pad + 512 + h.size)
                  (rest.drop h.size)).map
                (fun r => (⟨h.name, h.size, false, true, pos + pad + 512⟩ :: r.1,
                  s.take pad ++ (s.drop pad).take 512 ++ rest.take h.size ++ r.2))
          else
            if rest.length < min h.size binaryCheckSize then .error .shortRead
            else
              if rest.length < h.size then
                (indexTgzF fuel (some .shortRead) 0 (pos + pad + 512 + rest.length) []).map
                  (fun r => (⟨h.name, h.size, false,
                      isBinaryContent (rest.take (min h.size binaryCheckSize)),
                      pos + pad + 512⟩ :: r.1,
                    s.take pad ++ (s.drop pad).take 512 ++ rest ++ r.2))
              else
                (indexTgzF fuel none (dataPad h.size - h.size) (pos + pad + 512 + h.size)
                    (rest.drop h.size)).map
                  (fun r => (⟨h.name, h.size, false,
                      isBinaryContent (rest.take (min h.size binaryCheckSize)),
                      pos + pad + 512⟩ :: r.1,
                    s.take pad ++ (s.drop pad).take 512 ++ rest.take h.size ++ r.2))
        else
          (indexTgzF fuel none (dataPad (if isHeaderOnly h.typeflag then 0 else h.size))
              (pos + pad + 512) rest).map
            (fun r => (⟨h.name, h.size, h.typeflag == 0x35, false, 0⟩ :: r.1,
              s.take pad ++ (s.drop pad).take 512 ++ r.2))

/-- Lazy indexing over a decompressed tar stream (`indexTgzStream` in
main.go): returns the ordered index and the bytes forwarded to the sink. -/
def indexTgzStream (s : List Nat) : Except TErr (List FileIndexEntry × List Nat) :=
  indexTgzF (s.length + 1) none 0 0 s

/-- Embedding of Web `Blob.slice(start, end)` for non-negative arguments:
both bounds are clamped to the blob length; no error is ever raised. -/
def blobSlice (b : List Nat) (start stop : Nat) : List Nat :=
  (b.drop (min start b.length)).take (min stop b.length - min start b.length)

/-- Embedding of `readFileContent` from main.go: slice the forwarded-stream
blob at `[offset, offset+size)`, sniff the returned bytes, and produce
either the text or an empty-content binary marker.  The JS promise error
path carries no logic and is not modelled. -/
def readFileContent (blob : List Nat) (offset size : Nat) : List Nat × Bool :=
  let data := blobSlice blob offset (offset + size)
  if isBinaryContent data then ([], true) else (data, false)

/-- Store-level errors of TarStore.readFile in tar-store.ts. -/
inductive StoreErr where
  | notFinalized
  | notFound
deriving DecidableEq, Repr

/-- Embedding of the TypeScript `TarStore`: accumulated chunks, the Blob
built at finalize (none before finalize / after dispose), and the
path-to-entry index list (later entries win on duplicate paths, as
`Map.set` does). -/
structure TarStore where
  chunks : List (List Nat)
  blob : Option (List Nat)
  indexMap : List FileIndexEntry
deriving DecidableEq, Repr

/-- Fresh store, as constructed at fetch start. -/
def TarStore.empty : TarStore := ⟨[], none, []⟩

/-- Embedding of `TarStore.appendChunk`: unconditionally push a copy of the
chunk.  There is no finalized-state check in the code. -/
def TarStore.appendChunk (st : TarStore) (chunk : List Nat) : TarStore :=
  ⟨st.chunks ++ [chunk], st.blob, st.indexMap⟩

/-- Embedding of `TarStore.finalize`: build the Blob from the accumulated
chunks, release the chunk list, and install the index. -/
def TarStore.finalize (st : TarStore) (index : List FileIndexEntry) : TarStore :=
  ⟨[], some st.chunks.flatten, index⟩

/-- Embedding of `TarStore.getEntry`: path lookup; the last entry with the
path wins, matching repeated `Map.set`. -/
def TarStore.getEntry (st : TarStore) (path : List Nat) : Option FileIndexEntry :=
  st.indexMap.reverse.find? (fun e => e.path == path)

/-- Embedding of `TarStore.dispose`: release Blob, chunks and index. -/
def TarStore.dispose (_ : TarStore) : TarStore := ⟨[], none, []⟩

/-- Range read against the store, as the spec's `readRange(offset, size)`:
`TarStore.readFile`'s not-finalized guard composed with the
`Blob.slice` + `arrayBuffer` read performed by `__wasm_readFileFromTar`.
No bounds check exists anywhere on this path; `blobSlice` clamps. -/
def TarStore.readRange (st : TarStore) (offset size : Nat) :
    Except StoreErr (List Nat) :=
  match st.blob with
  | none => .error .notFinalized
  | some b => .ok (blobSlice b offset (offset + size))

/-- Embedding of `TarStore.readFile`: fail before finalize or on unknown
paths; directories are empty text, pre-classified binaries are returned
without touching the Blob, everything else goes through
`readFileContent`. -/
def TarStore.readFile (st : TarStore) (path : List Nat) :
    Except StoreErr (List Nat × Bool) :=
  match st.blob with
  | none => .error .notFinalized
  | some b =>
    match st.getEntry path with
    | none => .error .notFound
    | some e =>
      if e.isDir then .ok ([], false)
      else if e.isBinary then .ok ([], true)
      else .ok (readFileContent b e.offset e.size)

/-- Error channel of the JS-facing entry points: the size gate of
`__wasm_parseTgz` or a parse/index failure. -/
inductive WErr where
  | tooLarge
  | parse (e : TErr)
deriving DecidableEq, Repr

/-- Embedding of `__wasm_parseTgz` (in-memory eager entry point): reject
inputs longer than `maxTotalSize` before parsing, then run eager
extraction.  The gzip layer is modelled as the identity. -/
def wasmParseTgz (data : List Nat) : Except WErr (List ParsedFile) :=
  if maxTotalSize < data.length then .error .tooLarge
  else (parseTar data).mapError .parse

/-- Embedding of `__wasm_fetchAndParseTgz` (streaming eager entry point):
the content length reported by `jsFetch` is discarded (`body, _, err :=
jsFetch(...)`) and no total-size check is performed; the body is parsed
directly. -/
def wasmFetchAndParseTgz (_contentLength : Nat) (body : List Nat) :
    Except WErr (List ParsedFile) :=
  (parseTar body).mapError .parse

/-- Embedding of `__wasm_indexTgz` (lazy indexing entry point): like
`wasmFetchAndParseTgz`, the fetch's content length is discarded and no
total-size check is performed. -/
def wasmIndexTgz (_contentLength : Nat) (body : List Nat) :
    Except WErr (List FileIndexEntry × List Nat) :=
  (indexTgzStream body).mapError .parse

/-- Little-endian-free octal rendering for constructed test headers:
`width - 1` zero-padded octal digits followed by a NUL, the layout Go's tar
writer uses for numeric fields. -/
def mkOctal (v width : Nat) : List Nat :=
  (List.range (width - 1)).reverse.map (fun i => 0x30 + v / 8 ^ i % 8) ++ [0]

/-- Constructed v7 test header block: 100-byte name field, octal mode / uid
/ gid / size / mtime, a checksum computed over the block with the checksum
field as spaces (6 octal digits, NUL, space — the canonical rendering), the
typeflag at byte 156, and NULs elsewhere.  Test-harness helper only; the
parser never depends on it. -/
def mkHeaderBlock (name : List Nat) (size : Nat) (flag : Nat) : List Nat :=
  let pre := name.take 100 ++ List.replicate (100 - name.length) 0 ++
    mkOctal 420 8 ++ mkOctal 0 8 ++ mkOctal 0 8 ++ mkOctal size 12 ++ mkOctal 0 12
  let tail := [flag] ++ List.replicate 355 0
  let ck := unsignedSum (pre ++ List.replicate 8 0x20 ++ tail)
  pre ++ mkOctal ck 7 ++ [0x20] ++ tail

/-- Zero padding completing a data region of length `n` to whole blocks. -/
def padTo (n : Nat) : List Nat := List.replicate (dataPad n - n) 0

/-- End-of-archive marker: two zero blocks. -/
def endBlocks : List Nat := List.replicate 1024 0


theorem parseTarF_latched (f p : Nat) (s : List Nat) :
    parseTarF f (some .shortRead) p s = .error .shortRead := by
  cases f <;> rfl

theorem indexTgzF_latched (f p pos : Nat) (s : List Nat) :
    indexTgzF f (some .shortRead) p pos s = .error .shortRead := by
  cases f <;> rfl

theorem nextHeader_entry_of (blk rest : List Nat) (h : Hdr)
    (hlen : blk.length = 512) (hz : isZeroBlock blk = false)
    (hp : parseHeaderBlock blk = some h)
    (hu : unmodelledFlag h.typeflag = false) :
    nextHeader (blk ++ rest) = .entry h rest := by
  have hl : (blk ++ rest).length = 512 + rest.length := by
    simp [List.length_append, hlen]
  have ht : (blk ++ rest).take 512 = blk := by
    rw [← hlen]; exact List.take_left blk rest
  have hd : (blk ++ rest).drop 512 = rest := by
    rw [← hlen]; exact List.drop_left blk rest
  unfold nextHeader
  rw [hl, ht, hd, hz, hp]
  simp [hu]

theorem nextHeader_entry_inv (s : List Nat) (h : Hdr) (rest : List Nat)
    (hnx : nextHeader s = .entry h rest) :
    512 ≤ s.length ∧ rest = s.drop 512 ∧
      parseHeaderBlock (s.take 512) = some h ∧
      unmodelledFlag h.typeflag = false := by
  unfold nextHeader at hnx
  split at hnx
  · exact HdrRes.noConfusion hnx
  · split at hnx
    · exact HdrRes.noConfusion hnx
    · split at hnx
      · split at hnx
        · exact HdrRes.noConfusion hnx
        · split at hnx
          · exact HdrRes.noConfusion hnx
          · split at hnx <;> exact HdrRes.noConfusion hnx
      · split at hnx
        · exact HdrRes.noConfusion hnx
        · rename_i hlen0 hlen512 _ h2 hp
          split at hnx
          · exact HdrRes.noConfusion hnx
          · rename_i hu
            injection hnx with h1 h2'
            subst h1; subst h2'
            exact ⟨by omega, rfl, hp, by simpa using hu⟩

theorem nextHeader_atEnd_inv (s : List Nat) (c : Nat)
    (hnx : nextHeader s = .atEnd c) : c ≤ s.length := by
  unfold nextHeader at hnx
  split at hnx
  · injection hnx with h1; omega
  · split at hnx
    · exact HdrRes.noConfusion hnx
    · split at hnx
      · split at hnx
        · rename_i hlen0 hlen512 _ hrest0
          injection hnx with h1
          omega
        · split at hnx
          · exact HdrRes.noConfusion hnx
          · split at hnx
            · rename_i hlen0 hlen512 _ hrest0 hrest512 _
              injection hnx with h1
              have := List.length_drop 512 s
              omega
            · exact HdrRes.noConfusion hnx
      · split at hnx
        · exact HdrRes.noConfusion hnx
        · split at hnx <;> exact HdrRes.noConfusion hnx

theorem parseTarF_atEnd (fuel pad : Nat) (s : List Nat) (c : Nat)
    (hpad : pad ≤ s.length) (hnx : nextHeader (s.drop pad) = .atEnd c) :
    parseTarF (fuel + 1) none pad s = .ok [] := by
  conv_lhs => unfold parseTarF
  rw [if_neg (by omega), hnx]

theorem parseTarF_bad (fuel pad : Nat) (s : List Nat) (e : TErr)
    (hpad : pad ≤ s.length) (hnx : nextHeader (s.drop pad) = .bad e) :
    parseTarF (fuel + 1) none pad s = .error e := by
  conv_lhs => unfold parseTarF
  rw [if_neg (by omega), hnx]

theorem parseTarF_step_other (fuel pad : Nat) (s : List Nat) (h : Hdr)
    (rest : List Nat) (hpad : pad ≤ s.length)
    (hnx : nextHeader (s.drop pad) = .entry h rest)
    (hflag : h.typeflag ≠ 0x30) :
    parseTarF (fuel + 1) none pad s =
      (parseTarF fuel none (dataPad (if isHeaderOnly h.typeflag then 0 else h.size)) rest).map
        (fun fs => ⟨h.name, h.size, h.typeflag == 0x35, [], false⟩ :: fs) := by
  conv_lhs => unfold parseTarF
  rw [if_neg (by omega), hnx]
  simp only [if_neg (show ¬((!(h.typeflag == 0x35) && h.typeflag == 0x30) = true) by
    simp [hflag])]

theorem parseTarF_step_big (fuel pad : Nat) (s : List Nat) (h : Hdr)
    (rest : List Nat) (hpad : pad ≤ s.length)
    (hnx : nextHeader (s.drop pad) = .entry h rest)
    (hflag : h.typeflag = 0x30) (hsz : maxFileContentSize < h.size)
    (hlen : h.size ≤ rest.length) :
    parseTarF (fuel + 1) none pad s =
      (parseTarF fuel none (dataPad h.size - h.size) (rest.drop h.size)).map
        (fun fs => ⟨h.name, h.size, false, [], true⟩ :: fs) := by
  conv_lhs => unfold parseTarF
  rw [if_neg (by omega), hnx]
  simp only [if_pos (show (!(h.typeflag == 0x35) && h.typeflag == 0x30) = true by
    simp [hflag]), if_pos hsz, if_neg (show ¬rest.length < h.size by omega)]

theorem parseTarF_step_big_short (fuel pad : Nat) (s : List Nat) (h : Hdr)
    (rest : List Nat) (hpad : pad ≤ s.length)
    (hnx : nextHeader (s.drop pad) = .entry h rest)
    (hflag : h.typeflag = 0x30) (hsz : maxFileContentSize < h.size)
    (hlen : rest.length < h.size) :
    parseTarF (fuel + 1) none pad s = .error .shortRead := by
  conv_lhs => unfold parseTarF
  rw [if_neg (by omega), hnx]
  simp only [if_pos (show (!(h.typeflag == 0x35) && h.typeflag == 0x30) = true by
    simp [hflag]), if_pos hsz, if_pos hlen, parseTarF_latched]
  rfl

theorem parseTarF_step_small (fuel pad : Nat) (s : List Nat) (h : Hdr)
    (rest : List Nat) (hpad : pad ≤ s.length)
    (hnx : nextHeader (s.drop pad) = .entry h rest)
    (hflag : h.typeflag = 0x30) (hsz : h.size ≤ maxFileContentSize)
    (hlen : h.size ≤ rest.length) :
    parseTarF (fuel + 1) none pad s =
      (parseTarF fuel none (dataPad h.size - h.size) (rest.drop h.size)).map
        (fun fs =>
          (if isBinaryContent (rest.take h.size) then ⟨h.name, h.size, false, [], true⟩
           else ⟨h.name, h.size, false, rest.take h.size, false⟩) :: fs) := by
  conv_lhs => unfold parseTarF
  rw [if_neg (by omega), hnx]
  simp only [if_pos (show (!(h.typeflag == 0x35) && h.typeflag == 0x30) = true by
    simp [hflag]), if_neg (show ¬maxFileContentSize < h.size by omega),
    if_neg (show ¬rest.length < h.size by omega)]

theorem parseTarF_step_small_short (fuel pad : Nat) (s : List Nat) (h : Hdr)
    (rest : List Nat) (hpad : pad ≤ s.length)
    (hnx : nextHeader (s.drop pad) = .entry h rest)
    (hflag : h.typeflag = 0x30) (hsz : h.size ≤ maxFileContentSize)
    (hlen : rest.length < h.size) :
    parseTarF (fuel + 1) none pad s = .error .shortRead := by
  conv_lhs => unfold parseTarF
  rw [if_neg (by omega), hnx]
  simp only [if_pos (show (!(h.typeflag == 0x35) && h.typeflag == 0x30) = true by
    simp [hflag]), if_neg (show ¬maxFileContentSize < h.size by omega), if_pos hlen]

theorem indexTgzF_atEnd (fuel pad pos : Nat) (s : List Nat) (c : Nat)
    (hpad : pad ≤ s.length) (hnx : nextHeader (s.drop pad) = .atEnd c) :
    indexTgzF (fuel + 1) none pad pos s =
      .ok ([], s.take pad ++ (s.drop pad).take c) := by
  conv_lhs => unfold indexTgzF
  rw [if_neg (by omega), hnx]

theorem indexTgzF_bad (fuel pad pos : Nat) (s : List Nat) (e : TErr)
    (hpad : pad ≤ s.length) (hnx : nextHeader (s.drop pad) = .bad e) :
    indexTgzF (fuel + 1) none pad pos s = .error e := by
  conv_lhs => unfold indexTgzF
  rw [if_neg (by omega), hnx]

theorem indexTgzF_step_other (fuel pad pos : Nat) (s : List Nat) (h : Hdr)
    (rest : List Nat) (hpad : pad ≤ s.length)
    (hnx : nextHeader (s.drop pad) = .entry h rest)
    (hflag : h.typeflag ≠ 0x30) :
    indexTgzF (fuel + 1) none pad pos s =
      (indexTgzF fuel none (dataPad (if isHeaderOnly h.typeflag then 0 else h.size))
          (pos + pad + 512) rest).map
        (fun r => (⟨h.name, h.size, h.typeflag == 0x35, false, 0⟩ :: r.1,
          s.take pad ++ (s.drop pad).take 512 ++ r.2)) := by
  conv_lhs => unfold indexTgzF
  rw [if_neg (by omega), hnx]
  simp only [if_neg (show ¬((!(h.typeflag == 0x35) && h.typeflag == 0x30) = true) by
    simp [hflag])]

theorem indexTgzF_step_big (fuel pad pos : Nat) (s : List Nat) (h : Hdr)
    (rest : List Nat) (hpad : pad ≤ s.length)
    (hnx : nextHeader (s.drop pad) = .entry h rest)
    (hflag : h.typeflag = 0x30) (hsz : maxFileContentSize < h.size)
    (hlen : h.size ≤ rest.length) :
    indexTgzF (fuel + 1) none pad pos s =
      (indexTgzF fuel none (dataPad h.size - h.size) (pos + pad + 512 + h.size)
          (rest.drop h.size)).map
        (fun r => (⟨h.name, h.size, false, true, pos + pad + 512⟩ :: r.1,
          s.take pad ++ (s.drop pad).take 512 ++ rest.take h.size ++ r.2)) := by
  conv_lhs => unfold indexTgzF
  rw [if_neg (by omega), hnx]
  simp only [if_pos (show (!(h.typeflag == 0x35) && h.typeflag == 0x30) = true by
    simp [hflag]), if_pos hsz, if_neg (show ¬rest.length < h.size by omega)]

theorem indexTgzF_step_big_short (fuel pad pos : Nat) (s : List Nat) (h : Hdr)
    (rest : List Nat) (hpad : pad ≤ s.length)
    (hnx : nextHeader (s.drop pad) = .entry h rest)
    (hflag : h.typeflag = 0x30) (hsz : maxFileContentSize < h.size)
    (hlen : rest.length < h.size) :
    indexTgzF (fuel + 1) none pad pos s = .error .shortRead := by
  conv_lhs => unfold indexTgzF
  rw [if_neg (by omega), hnx]
  simp only [if_pos (show (!(h.typeflag == 0x35) && h.typeflag == 0x30) = true by
    simp [hflag]), if_pos hsz, if_pos hlen, indexTgzF_latched]
  rfl

theorem indexTgzF_step_small (fuel pad pos : Nat) (s : List Nat) (h : Hdr)
    (rest : List Nat) (hpad : pad ≤ s.length)
    (hnx : nextHeader (s.drop pad) = .entry h rest)
    (hflag : h.typeflag = 0x30) (hsz : h.size ≤ maxFileContentSize)
    (hlen : h.size ≤ rest.length) :
    indexTgzF (fuel + 1) none pad pos s =
      (indexTgzF fuel none (dataPad h.size - h.size) (pos + pad + 512 + h.size)
          (rest.drop h.size)).map
        (fun r => (⟨h.name, h.size, false,
            isBinaryContent (rest.take (min h.size binaryCheckSize)),
            pos + pad + 512⟩ :: r.1,
          s.take pad ++ (s.drop pad).take 512 ++ rest.take h.size ++ r.2)) := by
  conv_lhs => unfold indexTgzF
  rw [if_neg (by omega), hnx]
  simp only [if_pos (show (!(h.typeflag == 0x35) && h.typeflag == 0x30) = true by
    simp [hflag]), if_neg (show ¬maxFileContentSize < h.size by omega),
    if_neg (show ¬rest.length < min h.size binaryCheckSize by
      have := Nat.min_le_left h.size binaryCheckSize; omega),
    if_neg (show ¬rest.length < h.size by omega)]

theorem indexTgzF_step_small_drain_short (fuel pad pos : Nat) (s : List Nat)
    (h : Hdr) (rest : List Nat) (hpad : pad ≤ s.length)
    (hnx : nextHeader (s.drop pad) = .entry h rest)
    (hflag : h.typeflag = 0x30) (hsz : h.size ≤ maxFileContentSize)
    (hprobe : min h.size binaryCheckSize ≤ rest.length)
    (hlen : rest.length < h.size) :
    indexTgzF (fuel + 1) none pad pos s = .error .shortRead := by
  conv_lhs => unfold indexTgzF
  rw [if_neg (by omega), hnx]
  simp only [if_pos (show (!(h.typeflag == 0x35) && h.typeflag == 0x30) = true by
    simp [hflag]), if_neg (show ¬maxFileContentSize < h.size by omega),
    if_neg (show ¬rest.length < min h.size binaryCheckSize by omega),
    if_pos hlen, indexTgzF_latched]
  rfl

theorem indexTgzF_step_small_probe_short (fuel pad pos : Nat) (s : List Nat)
    (h : Hdr) (rest : List Nat) (hpad : pad ≤ s.length)
    (hnx : nextHeader (s.drop pad) = .entry h rest)
    (hflag : h.typeflag = 0x30) (hsz : h.size ≤ maxFileContentSize)
    (hprobe : rest.length < min h.size binaryCheckSize) :
    indexTgzF (fuel + 1) none pad pos s = .error .shortRead := by
  conv_lhs => unfold indexTgzF
  rw [if_neg (by omega), hnx]
  simp only [if_pos (show (!(h.typeflag == 0x35) && h.typeflag == 0x30) = true by
    simp [hflag]), if_neg (show ¬maxFileContentSize < h.size by omega), if_pos hprobe]

theorem parseTarF_guard (fuel pad : Nat) (s : List Nat)
    (hpad : s.length < pad) :
    parseTarF (fuel + 1) none pad s = .error .shortRead := by
  conv_lhs => unfold parseTarF
  rw [if_pos hpad]

theorem indexTgzF_guard (fuel pad pos : Nat) (s : List Nat)
    (hpad : s.length < pad) :
    indexTgzF (fuel + 1) none pad pos s = .error .shortRead := by
  conv_lhs => unfold indexTgzF
  rw [if_pos hpad]

/-- Relation between one index entry and the matching eager entry for the
archive whose decompressed stream is `s0`, all offsets absolute and every
data extent below `endPos` (the total number of forwarded bytes).  An
offset of 0 marks an entry that the indexing pass never assigned an offset
to (directories and other non-regular entries); regular files always
record offset ≥ 512. -/
def entryOk (s0 : List Nat) (endPos : Nat) (e : FileIndexEntry) (f : ParsedFile) : Prop :=
  (e.path = f.path ∧ e.size = f.size ∧ e.isDir = f.isDir ∧ e.isBinary = f.isBinary) ∧
  (e.offset = 0 → e.isBinary = false ∧ f.content = []) ∧
  (e.offset ≠ 0 →
    e.isDir = false ∧ 512 ≤ e.offset ∧ e.offset + e.size ≤ endPos ∧
    parseHeaderBlock ((s0.drop (e.offset - 512)).take 512) = some ⟨e.path, e.size, 0x30⟩ ∧
    (maxFileContentSize < e.size → e.isBinary = true) ∧
    (e.size ≤ maxFileContentSize →
      e.isBinary = isBinaryContent ((s0.drop e.offset).take (min e.size binaryCheckSize))) ∧
    (e.isBinary = false → f.content = (s0.drop e.offset).take e.size ∧
      f.content.length = e.size))

/-- Pointwise correspondence between an index and an eager result. -/
def aligned (s0 : List Nat) (endPos : Nat) :
    List FileIndexEntry → List ParsedFile → Prop
  | [], [] => True
  | e :: es, f :: fs => entryOk s0 endPos e f ∧ aligned s0 endPos es fs
  | _, _ => False

/-- Offset chain: every offset-carrying entry sits at or above the bound,
and later offset-carrying entries start at or after the previous one's
data end. -/
def regChainB (lb : Nat) : List FileIndexEntry → Bool
  | [] => true
  | e :: es =>
    if e.offset = 0 then regChainB lb es
    else decide (lb ≤ e.offset) && regChainB (e.offset + e.size) es

theorem regChainB_anti (lb lb' : Nat) (l : List FileIndexEntry)
    (hle : lb ≤ lb') (hc : regChainB lb' l = true) : regChainB lb l = true := by
  induction l generalizing lb lb' with
  | nil => rfl
  | cons e es ih =>
    unfold regChainB at hc ⊢
    by_cases h0 : e.offset = 0
    · rw [if_pos h0] at hc ⊢
      exact ih lb lb' hle hc
    · rw [if_neg h0] at hc ⊢
      simp only [Bool.and_eq_true, decide_eq_true_eq] at hc ⊢
      exact ⟨by omega, hc.2⟩

theorem regChainB_lb (lb : Nat) (l : List FileIndexEntry)
    (hc : regChainB lb l = true) :
    ∀ k (hk : k < l.length), (l.get ⟨k, hk⟩).offset ≠ 0 →
      lb ≤ (l.get ⟨k, hk⟩).offset := by
  induction l generalizing lb with
  | nil => intro k hk; simp at hk
  | cons e es ih =>
    intro k hk hne
    unfold regChainB at hc
    match k with
    | 0 =>
      simp only [List.get] at hne ⊢
      rw [if_neg hne] at hc
      simp only [Bool.and_eq_true, decide_eq_true_eq] at hc
      exact hc.1
    | k + 1 =>
      simp only [List.get] at hne ⊢
      by_cases h0 : e.offset = 0
      · rw [if_pos h0] at hc
        exact ih lb hc k (by simpa using hk) hne
      · rw [if_neg h0] at hc
        simp only [Bool.and_eq_true, decide_eq_true_eq] at hc
        have := ih (e.offset + e.size) hc.2 k (by simpa using hk) hne
        omega

theorem regChainB_pairwise (lb : Nat) (l : List FileIndexEntry)
    (hc : regChainB lb l = true) :
    ∀ i j (hi : i < l.length) (hj : j < l.length), i < j →
      (l.get ⟨i, hi⟩).offset ≠ 0 → (l.get ⟨j, hj⟩).offset ≠ 0 →
      (l.get ⟨i, hi⟩).offset + (l.get ⟨i, hi⟩).size ≤ (l.get ⟨j, hj⟩).offset := by
  induction l generalizing lb with
  | nil => intro i j hi; simp at hi
  | cons e es ih =>
    intro i j hi hj hij hni hnj
    unfold regChainB at hc
    match i, j with
    | 0, j + 1 =>
      simp only [List.get] at hni hnj ⊢
      rw [if_neg hni] at hc
      simp only [Bool.and_eq_true, decide_eq_true_eq] at hc
      exact regChainB_lb _ es hc.2 j (by simpa using hj) hnj
    | i + 1, j + 1 =>
      simp only [List.get] at hni hnj ⊢
      by_cases h0 : e.offset = 0
      · rw [if_pos h0] at hc
        exact ih lb hc i j (by simpa using hi) (by simpa using hj) (by omega) hni hnj
      · rw [if_neg h0] at hc
        simp only [Bool.and_eq_true, decide_eq_true_eq] at hc
        exact ih _ hc.2 i j (by simpa using hi) (by simpa using hj) (by omega) hni hnj

theorem aligned_length (s0 : List Nat) (p : Nat) (es : List FileIndexEntry)
    (fs : List ParsedFile) (ha : aligned s0 p es fs) : es.length = fs.length := by
  induction es generalizing fs with
  | nil => cases fs with
    | nil => rfl
    | cons f fs => exact absurd ha (by simp [aligned])
  | cons e es ih =>
    cases fs with
    | nil => exact absurd ha (by simp [aligned])
    | cons f fs =>
      unfold aligned at ha
      simp [ih fs ha.2]

theorem aligned_get (s0 : List Nat) (p : Nat) (es : List FileIndexEntry)
    (fs : List ParsedFile) (ha : aligned s0 p es fs) :
    ∀ k (hk : k < es.length) (hk2 : k < fs.length),
      entryOk s0 p (es.get ⟨k, hk⟩) (fs.get ⟨k, hk2⟩) := by
  induction es generalizing fs with
  | nil => intro k hk; simp at hk
  | cons e es ih =>
    intro k hk hk2
    cases fs with
    | nil => exact absurd ha (by simp [aligned])
    | cons f fs =>
      unfold aligned at ha
      match k with
      | 0 => exact ha.1
      | k + 1 => exact ih fs ha.2 k (by simpa using hk) (by simpa using hk2)

theorem isBinaryContent_take512 (l : List Nat) (n : Nat) :
    isBinaryContent (l.take n) = isBinaryContent (l.take (min n 512)) := by
  unfold isBinaryContent
  have h1 : (l.take n).take binaryCheckSize = l.take (min n 512) := by
    rw [show binaryCheckSize = 512 from rfl, List.take_take]
    congr 1
    omega
  have h2 : (l.take (min n 512)).take binaryCheckSize = l.take (min n 512) := by
    rw [show binaryCheckSize = 512 from rfl, List.take_take]
    congr 1
    omega
  rw [h1, h2]

theorem map_ok_inv {α β ε : Type} (x : Except ε α) (g : α → β) (y : β)
    (h : x.map g = .ok y) : ∃ r, x = .ok r ∧ y = g r := by
  cases x with
  | error e => exact absurd h (by simp [Except.map])
  | ok a =>
    refine ⟨a, rfl, ?_⟩
    simpa [Except.map] using h.symm

theorem take_merge {α : Type} (l : List α) (a b : Nat) (x : List α) :
    l.take a ++ ((l.drop a).take b ++ x) = l.take (a + b) ++ x := by
  rw [List.take_add, List.append_assoc]

theorem indexMaster (fuel : Nat) :
    ∀ (s0 : List Nat) (pos pad : Nat) (es : List FileIndexEntry) (fwd : List Nat),
    (s0.drop pos).length < fuel →
    indexTgzF fuel none pad pos (s0.drop pos) = .ok (es, fwd) →
    ∃ files n,
      parseTarF fuel none pad (s0.drop pos) = .ok files ∧
      fwd = (s0.drop pos).take n ∧ pad ≤ n ∧ n ≤ (s0.drop pos).length ∧
      aligned s0 (pos + n) es files ∧ regChainB pos es = true := by
  induction fuel with
  | zero => intro s0 pos pad es fwd hf; omega
  | succ fuel ih =>
    intro s0 pos pad es fwd hf hidx
    have hLs : (s0.drop pos).length = s0.length - pos := List.length_drop pos s0
    by_cases hpad : (s0.drop pos).length < pad
    · rw [indexTgzF_guard fuel pad pos _ hpad] at hidx
      exact absurd hidx (by simp)
    · push_neg at hpad
      cases hnx : nextHeader ((s0.drop pos).drop pad) with
      | atEnd c =>
        rw [indexTgzF_atEnd fuel pad pos _ c hpad hnx] at hidx
        injection hidx with hidx
        have hes := congrArg Prod.fst hidx
        have hfwd := congrArg Prod.snd hidx
        simp only at hes hfwd
        have hc : c ≤ ((s0.drop pos).drop pad).length := nextHeader_atEnd_inv _ c hnx
        have hcl : ((s0.drop pos).drop pad).length = (s0.drop pos).length - pad :=
          List.length_drop pad _
        refine ⟨[], pad + c, ?_, ?_, by omega, by omega, ?_, ?_⟩
        · exact parseTarF_atEnd fuel pad _ c hpad hnx
        · rw [← hfwd, List.take_add]
        · rw [← hes]; exact trivial
        · rw [← hes]; rfl
      | bad e =>
        rw [indexTgzF_bad fuel pad pos _ e hpad hnx] at hidx
        exact absurd hidx (by simp)
      | entry h rest =>
        obtain ⟨hble, hrest, hpb, hum⟩ := nextHeader_entry_inv _ h rest hnx
        have hcl : ((s0.drop pos).drop pad).length = (s0.drop pos).length - pad :=
          List.length_drop pad _
        have hdp : (s0.drop pos).drop pad = s0.drop (pos + pad) := List.drop_drop pad pos s0
        have hrest2 : rest = s0.drop (pos + pad + 512) := by
          rw [hrest, hdp, List.drop_drop]
        have hrl : rest.length = (s0.drop pos).length - pad - 512 := by
          rw [hrest, List.length_drop, hcl]
        by_cases hflag : h.typeflag = 0x30
        · by_cases hsz : maxFileContentSize < h.size
          · by_cases hlen : rest.length < h.size
            · rw [indexTgzF_step_big_short fuel pad pos _ h rest hpad hnx hflag hsz hlen] at hidx
              exact absurd hidx (by simp)
            · push_neg at hlen
              rw [indexTgzF_step_big fuel pad pos _ h rest hpad hnx hflag hsz hlen] at hidx
              obtain ⟨r, hrec, hy⟩ := map_ok_inv _ _ _ hidx
              have hes := congrArg Prod.fst hy
              have hfwd := congrArg Prod.snd hy
              simp only at hes hfwd
              have hdd : rest.drop h.size = s0.drop (pos + pad + 512 + h.size) := by
                rw [hrest2, List.drop_drop]
              have hdp3 : s0.drop (pos + pad + 512 + h.size) =
                  (s0.drop pos).drop (pad + 512 + h.size) := by
                rw [List.drop_drop, show pos + (pad + 512 + h.size) = pos + pad + 512 + h.size from by omega]
              have hrest3 : rest = (s0.drop pos).drop (pad + 512) := by
                rw [hrest2, List.drop_drop, show pos + (pad + 512) = pos + pad + 512 from by omega]
              have hL3 : (s0.drop (pos + pad + 512 + h.size)).length =
                  s0.length - (pos + pad + 512 + h.size) := List.length_drop _ s0
              have hf3 : (s0.drop (pos + pad + 512 + h.size)).length < fuel := by omega
              rw [hdd] at hrec
              obtain ⟨files2, n2, hpeq, hfwd2, hpn2, hn2, halg2, hch2⟩ :=
                ih s0 (pos + pad + 512 + h.size) (dataPad h.size - h.size) r.1 r.2 hf3 hrec
              refine ⟨⟨h.name, h.size, false, [], true⟩ :: files2,
                pad + 512 + h.size + n2, ?_, ?_, by omega, by omega, ?_, ?_⟩
              · rw [parseTarF_step_big fuel pad _ h rest hpad hnx hflag hsz hlen, hdd, hpeq]
                rfl
              · rw [hfwd, hfwd2, hdp3, hrest3, List.append_assoc, List.append_assoc,
                  take_merge, take_merge]
                exact (List.take_add (s0.drop pos) (pad + 512 + h.size) n2).symm
              · rw [hes]
                refine ⟨⟨⟨rfl, rfl, rfl, rfl⟩, fun h0 => absurd h0 (by dsimp only; omega), ?_⟩, ?_⟩
                · intro _
                  refine ⟨rfl, by dsimp only; omega, by dsimp only; omega, ?_,
                    fun _ => rfl, ?_, ?_⟩
                  · have hηh : (⟨h.name, h.size, 0x30⟩ : Hdr) = h := by rw [← hflag]
                    dsimp only
                    rw [show pos + pad + 512 - 512 = pos + pad from by omega, hηh, ← hdp]
                    exact hpb
                  · intro hc
                    dsimp only at hc
                    exact absurd hc (by omega)
                  · intro hfalse
                    exact absurd hfalse (by simp)
                · rw [show pos + (pad + 512 + h.size + n2) = pos + pad + 512 + h.size + n2 from by omega]
                  exact halg2
              · rw [hes]
                show regChainB pos (⟨h.name, h.size, false, true, pos + pad + 512⟩ :: r.1) = true
                unfold regChainB
                dsimp only
                rw [if_neg (show ¬(pos + pad + 512 = 0) from by omega)]
                simp only [Bool.and_eq_true, decide_eq_true_eq]
                exact ⟨by omega, hch2⟩
          · push_neg at hsz
            by_cases hlen : rest.length < h.size
            · by_cases hpr : rest.length < min h.size binaryCheckSize
              · rw [indexTgzF_step_small_probe_short fuel pad pos _ h rest hpad hnx hflag hsz hpr] at hidx
                exact absurd hidx (by simp)
              · push_neg at hpr
                rw [indexTgzF_step_small_drain_short fuel pad pos _ h rest hpad hnx hflag hsz hpr hlen] at hidx
                exact absurd hidx (by simp)
            · push_neg at hlen
              rw [indexTgzF_step_small fuel pad pos _ h rest hpad hnx hflag hsz hlen] at hidx
              obtain ⟨r, hrec, hy⟩ := map_ok_inv _ _ _ hidx
              have hes := congrArg Prod.fst hy
              have hfwd := congrArg Prod.snd hy
              simp only at hes hfwd
              have hdd : rest.drop h.size = s0.drop (pos + pad + 512 + h.size) := by
                rw [hrest2, List.drop_drop]
              have hdp3 : s0.drop (pos + pad + 512 + h.size) =
                  (s0.drop pos).drop (pad + 512 + h.size) := by
                rw [List.drop_drop, show pos + (pad + 512 + h.size) = pos + pad + 512 + h.size from by omega]
              have hrest3 : rest = (s0.drop pos).drop (pad + 512) := by
                rw [hrest2, List.drop_drop, show pos + (pad + 512) = pos + pad + 512 from by omega]
              have hL3 : (s0.drop (pos + pad + 512 + h.size)).length =
                  s0.length - (pos + pad + 512 + h.size) := List.length_drop _ s0
              have hf3 : (s0.drop (pos + pad + 512 + h.size)).length < fuel := by omega
              have hbeq : isBinaryContent (rest.take (min h.size binaryCheckSize)) =
                  isBinaryContent (rest.take h.size) := by
                rw [isBinaryContent_take512 rest (min h.size binaryCheckSize),
                  isBinaryContent_take512 rest h.size]
                congr 2
                simp only [binaryCheckSize]
                omega
              rw [hdd] at hrec
              obtain ⟨files2, n2, hpeq, hfwd2, hpn2, hn2, halg2, hch2⟩ :=
                ih s0 (pos + pad + 512 + h.size) (dataPad h.size - h.size) r.1 r.2 hf3 hrec
              refine ⟨(if isBinaryContent (rest.take h.size) then
                  (⟨h.name, h.size, false, [], true⟩ : ParsedFile)
                else ⟨h.name, h.size, false, rest.take h.size, false⟩) :: files2,
                pad + 512 + h.size + n2, ?_, ?_, by omega, by omega, ?_, ?_⟩
              · rw [parseTarF_step_small fuel pad _ h rest hpad hnx hflag hsz hlen, hdd, hpeq]
                rfl
              · rw [hfwd, hfwd2, hdp3, hrest3, List.append_assoc, List.append_assoc,
                  take_merge, take_merge]
                exact (List.take_add (s0.drop pos) (pad + 512 + h.size) n2).symm
              · rw [hes]
                refine ⟨?_, ?_⟩
                · cases hbin : isBinaryContent (rest.take h.size) with
                  | false =>
                    rw [if_neg (by simp)]
                    refine ⟨⟨rfl, rfl, rfl, by dsimp only; rw [hbeq, hbin]⟩,
                      fun h0 => absurd h0 (by dsimp only; omega), ?_⟩
                    intro _
                    refine ⟨rfl, by dsimp only; omega, by dsimp only; omega, ?_, ?_, ?_, ?_⟩
                    · have hηh : (⟨h.name, h.size, 0x30⟩ : Hdr) = h := by rw [← hflag]
                      dsimp only
                      rw [show pos + pad + 512 - 512 = pos + pad from by omega, hηh, ← hdp]
                      exact hpb
                    · intro hc
                      dsimp only at hc
                      exact absurd hc (by omega)
                    · intro _
                      dsimp only
                      rw [← hrest2]
                    · intro _
                      dsimp only
                      constructor
                      · rw [← hrest2]
                      · rw [List.length_take]
                        omega
                  | true =>
                    rw [if_pos (by simp)]
                    refine ⟨⟨rfl, rfl, rfl, by dsimp only; rw [hbeq, hbin]⟩,
                      fun h0 => absurd h0 (by dsimp only; omega), ?_⟩
                    intro _
                    refine ⟨rfl, by dsimp only; omega, by dsimp only; omega, ?_, ?_, ?_, ?_⟩
                    · have hηh : (⟨h.name, h.size, 0x30⟩ : Hdr) = h := by rw [← hflag]
                      dsimp only
                      rw [show pos + pad + 512 - 512 = pos + pad from by omega, hηh, ← hdp]
                      exact hpb
                    · intro hc
                      dsimp only at hc
                      exact absurd hc (by omega)
                    · intro _
                      dsimp only
                      rw [← hrest2]
                    · intro hfalse
                      dsimp only at hfalse
                      rw [hbeq, hbin] at hfalse
                      exact absurd hfalse (by simp)
                · rw [show pos + (pad + 512 + h.size + n2) = pos + pad + 512 + h.size + n2 from by omega]
                  exact halg2
              · rw [hes]
                show regChainB pos (⟨h.name, h.size, false,
                  isBinaryContent (rest.take (min h.size binaryCheckSize)),
                  pos + pad + 512⟩ :: r.1) = true
                unfold regChainB
                dsimp only
                rw [if_neg (show ¬(pos + pad + 512 = 0) from by omega)]
                simp only [Bool.and_eq_true, decide_eq_true_eq]
                exact ⟨by omega, hch2⟩
        · rw [indexTgzF_step_other fuel pad pos _ h rest hpad hnx hflag] at hidx
          obtain ⟨r, hrec, hy⟩ := map_ok_inv _ _ _ hidx
          have hes := congrArg Prod.fst hy
          have hfwd := congrArg Prod.snd hy
          simp only at hes hfwd
          have hps : pos + pad + 512 = pos + (pad + 512) := by omega
          have hdp2 : s0.drop (pos + pad + 512) = (s0.drop pos).drop (pad + 512) := by
            rw [List.drop_drop, hps]
          have hL2 : (s0.drop (pos + pad + 512)).length = s0.length - (pos + pad + 512) :=
            List.length_drop _ s0
          have hf2 : (s0.drop (pos + pad + 512)).length < fuel := by omega
          rw [hrest2] at hrec
          obtain ⟨files2, n2, hpeq, hfwd2, hpn2, hn2, halg2, hch2⟩ :=
            ih s0 (pos + pad + 512) (dataPad (if isHeaderOnly h.typeflag then 0 else h.size))
              r.1 r.2 hf2 hrec
          refine ⟨⟨h.name, h.size, h.typeflag == 0x35, [], false⟩ :: files2,
            pad + 512 + n2, ?_, ?_, by omega, ?_, ?_, ?_⟩
          · rw [parseTarF_step_other fuel pad _ h rest hpad hnx hflag, hrest2, hpeq]
            rfl
          · rw [hfwd, hfwd2, hdp2, List.append_assoc, take_merge]
            exact (List.take_add (s0.drop pos) (pad + 512) n2).symm
          · omega
          · rw [hes]
            refine ⟨⟨⟨rfl, rfl, rfl, rfl⟩, fun _ => ⟨rfl, rfl⟩,
              fun habs => absurd rfl habs⟩, ?_⟩
            have : pos + pad + 512 + n2 = pos + (pad + 512 + n2) := by omega
            rw [this] at halg2
            exact halg2
          · rw [hes]
            show regChainB pos (⟨h.name, h.size, h.typeflag == 0x35, false, 0⟩ :: r.1) = true
            unfold regChainB
            rw [if_pos rfl]
            exact regChainB_anti pos (pos + pad + 512) r.1 (by omega) hch2
theorem blobSlice_take_of (s : List Nat) (n o sz : Nat)
    (h1 : o + sz ≤ n) (h2 : n ≤ s.length) :
    blobSlice (s.take n) o (o + sz) = (s.drop o).take sz := by
  unfold blobSlice
  have hL : (s.take n).length = n := by
    rw [List.length_take]
    omega
  rw [hL, show min o n = o from by omega, show min (o + sz) n = o + sz from by omega,
    List.drop_take, List.take_take]
  congr 1
  omega

theorem take_drop_of_take (s : List Nat) (n o len : Nat)
    (h1 : o + len ≤ n) :
    ((s.take n).drop o).take len = (s.drop o).take len := by
  rw [List.drop_take, List.take_take]
  congr 1
  omega

theorem length_take_of (s : List Nat) (n : Nat) (h : n ≤ s.length) :
    (s.take n).length = n := by
  rw [List.length_take]
  omega

/-- Concrete archives used as witness and counterexample inputs.  Each one
ends exactly at an entry boundary, which archive/tar accepts as a clean
end of archive, keeping the inputs small enough for kernel evaluation. -/
def archText : List Nat :=
  mkHeaderBlock [0x61] 2 0x30 ++ ([0x68, 0x69] ++ padTo 2)

/-- Archive with one regular file "c" of content "hi" for the C2 counterexample. -/
def archText2 : List Nat :=
  mkHeaderBlock [0x63] 2 0x30 ++ ([0x68, 0x69] ++ padTo 2)

/-- Archive with one regular file "f" of content "ok" for the C6 witness. -/
def archText6 : List Nat :=
  mkHeaderBlock [0x66] 2 0x30 ++ ([0x6f, 0x6b] ++ padTo 2)

/-- Name bytes "abcdefghij" of the unknown-typeflag entry below. -/
def alphaName : List Nat :=
  [0x61, 0x62, 0x63, 0x64, 0x65, 0x66, 0x67, 0x68, 0x69, 0x6a]

/-- Archive with a single 10-byte entry of unknown typeflag 0x41 ('A'):
archive/tar yields it as a non-directory, non-regular entry with data, the
indexing pass records no offset for it, and the resolver then reads from
offset 0. -/
def archAlpha : List Nat :=
  mkHeaderBlock alphaName 10 0x41 ++
    ([0x30, 0x31, 0x32, 0x33, 0x34, 0x35, 0x36, 0x37, 0x38, 0x39] ++ padTo 10)

/-- Archive with an empty regular file followed by a directory. -/
def archRegDir : List Nat :=
  mkHeaderBlock [0x61] 0 0x30 ++ mkHeaderBlock [0x64, 0x2f] 0 0x35

/-- Archive with two empty regular files "a" and "b". -/
def archTwoReg : List Nat :=
  mkHeaderBlock [0x61] 0 0x30 ++ mkHeaderBlock [0x62] 0 0x30

/-- Archive with an empty regular file "e" followed by a directory. -/
def archEmpty : List Nat :=
  mkHeaderBlock [0x65] 0 0x30 ++ mkHeaderBlock [0x64, 0x2f] 0 0x35

/-- Truncated archive: an oversized entry (600000 declared bytes) whose data
is cut off after 100 bytes, so the binary-marking drain fails. -/
def archTrunc1 : List Nat :=
  mkHeaderBlock [0x62] 600000 0x30 ++ List.replicate 100 65

/-- Truncated archive: a within-threshold entry (513 declared bytes) whose
data is cut off after 512 bytes, so the probe succeeds and the
remainder-drain fails. -/
def archTrunc2 : List Nat :=
  mkHeaderBlock [0x62] 513 0x30 ++ List.replicate 512 65

/-- Header of a regular file of exactly maxFileContentSize bytes. -/
def c4hdr : List Nat := mkHeaderBlock [0x67] 524288 0x30

/-- Data of the at-threshold entry: 512 KiB of the letter A. -/
def c4data : List Nat := List.replicate 524288 65

/-- Archive with one regular file of exactly 512 KiB. -/
def c4arch : List Nat := c4hdr ++ c4data

/-- Header of a regular file of maxFileContentSize + 1 bytes. -/
def c4hdrB : List Nat := mkHeaderBlock [0x67] 524289 0x30

/-- Data of the one-over-threshold entry. -/
def c4dataB : List Nat := List.replicate 524289 65

/-- Archive with one regular file of 512 KiB + 1 byte (524289 is
512 · 1024 + 1, so its data region spans 1025 blocks). -/
def c4archB : List Nat := c4hdrB ++ c4dataB

/-- Store holding four finalized bytes, for the C3 counterexample. -/
def store4 : TarStore :=
  TarStore.finalize (TarStore.appendChunk TarStore.empty [1, 2, 3, 4]) []

/-- Store holding two finalized bytes, for the C9 counterexample. -/
def store2 : TarStore :=
  TarStore.finalize (TarStore.appendChunk TarStore.empty [1, 2]) []

/-- C2 (corrected): only the in-memory eager entry point enforces the
100 MiB whole-archive cap — a byte array longer than `maxTotalSize` is
rejected before parsing.  The URL-based streaming eager and indexing entry
points discard the content length reported by the fetch and perform no
total-size check at all: their result is independent of the declared
length. -/
theorem c2_size_cap (data body : List Nat) (cl : Nat)
    (hbig : maxTotalSize < data.length) :
    wasmParseTgz data = .error .tooLarge ∧
    wasmFetchAndParseTgz cl body = wasmFetchAndParseTgz 0 body ∧
    wasmIndexTgz cl body = wasmIndexTgz 0 body := by
  refine ⟨?_, rfl, rfl⟩
  unfold wasmParseTgz
  rw [if_pos hbig]

/-- C2 witness: a 100 MiB + 1 byte in-memory input is rejected up front. -/
theorem c2_size_cap_w :
    maxTotalSize < (List.replicate 104857601 (0 : Nat)).length ∧
    wasmParseTgz (List.replicate 104857601 (0 : Nat)) = .error .tooLarge := by
  have hbig : maxTotalSize < (List.replicate 104857601 (0 : Nat)).length := by
    rw [List.length_replicate]
    decide
  exact ⟨hbig, (c2_size_cap _ [] 0 hbig).1⟩

/-- C2 counterexample: a fetch whose declared content length (104857601
bytes, over the 100 MiB cap) feeds the streaming eager and the indexing
entry points is not rejected: both succeed and produce one entry, refuting
the claim that every entry point fails with zero entries. -/
theorem c2_cex :
    maxTotalSize < 104857601 ∧
    wasmFetchAndParseTgz 104857601 archText2 =
      .ok [⟨[0x63], 2, false, [0x68, 0x69], false⟩] ∧
    wasmIndexTgz 104857601 archText2 =
      .ok ([⟨[0x63], 2, false, false, 512⟩], archText2) := by
  exact ⟨by decide, by decide, by decide⟩

/-- C3 (corrected): a range read against the finalized store returns
exactly `size` bytes whenever the requested range lies within bounds, and
it errors when issued before finalize; but an out-of-bounds range is NOT
an error — `Blob.slice` clamps both ends to the blob, so the read succeeds
and returns only the in-bounds portion. -/
theorem c3_read_range (st : TarStore) (b : List Nat) (off sz : Nat) :
    (st.blob = some b → off + sz ≤ b.length →
      st.readRange off sz = .ok ((b.drop off).take sz) ∧
      ((b.drop off).take sz).length = sz) ∧
    (st.blob = none → st.readRange off sz = .error .notFinalized) ∧
    (st.blob = some b →
      ∃ out, st.readRange off sz = .ok out ∧
        out.length = min (off + sz) b.length - min off b.length) := by
  refine ⟨?_, ?_, ?_⟩
  · intro hb hin
    unfold TarStore.readRange blobSlice
    rw [hb]
    dsimp only
    constructor
    · congr 1
      rw [show min off b.length = off from by omega,
        show min (off + sz) b.length = off + sz from by omega]
      congr 1
      omega
    · rw [List.length_take, List.length_drop]
      omega
  · intro hb
    unfold TarStore.readRange
    rw [hb]
  · intro hb
    unfold TarStore.readRange
    rw [hb]
    dsimp only
    refine ⟨_, rfl, ?_⟩
    unfold blobSlice
    rw [List.length_take, List.length_drop]
    omega

/-- C3 witness: on the four-byte finalized store, an in-bounds read of two
bytes at offset 1 returns exactly those two bytes, and a read against a
store that was never finalized fails. -/
theorem c3_read_range_w :
    store4.readRange 1 2 = .ok [2, 3] ∧
    TarStore.empty.readRange 1 2 = .error .notFinalized := by
  have hb : store4.blob = some [1, 2, 3, 4] := by decide
  have h := (c3_read_range store4 [1, 2, 3, 4] 1 2).1 hb (by decide)
  refine ⟨?_, (c3_read_range TarStore.empty [] 1 2).2.1 rfl⟩
  rw [h.1]
  decide

/-- C3 counterexample: reading 10 bytes at offset 2 of the four-byte
finalized store is out of bounds, yet the read does not error — the slice
clamps and only 2 bytes come back, refuting the claim that out-of-range
reads fail. -/
theorem c3_cex :
    store4.readRange 2 10 = .ok [3, 4] ∧
    ([1, 2, 3, 4] : List Nat).length < 2 + 10 ∧
    ([3, 4] : List Nat).length ≠ 10 := by
  exact ⟨by decide, by decide, by decide⟩

/-- C9 (corrected): appendChunk after finalize is not rejected — it cannot
be, since the method unconditionally pushes the chunk and has no error
path — but the appended chunk cannot alter the finalized addressable
range: the Blob, every range read and every file read are unchanged. -/
theorem c9_append_after_finalize (st : TarStore) (c : List Nat) (off sz : Nat)
    (path : List Nat) :
    (st.appendChunk c).blob = st.blob ∧
    (st.appendChunk c).readRange off sz = st.readRange off sz ∧
    (st.appendChunk c).readFile path = st.readFile path ∧
    (st.appendChunk c).chunks = st.chunks ++ [c] := by
  exact ⟨rfl, rfl, rfl, rfl⟩

/-- C9 counterexample: appending to the finalized two-byte store succeeds
and records the chunk — no error of any kind is raised — refuting the
claim that such a call is rejected with an error. -/
theorem c9_cex :
    store2.appendChunk [9] = ⟨[[9]], some [1, 2], []⟩ ∧
    (store2.appendChunk [9]).readRange 0 2 = .ok [1, 2] := by
  exact ⟨by decide, by decide⟩

/-- C5 (confirmed): the binary sniff depends only on the first 512 bytes of
its input (first conjunct), the probe taken by the lazy indexing pass —
the first `min size 512` bytes of an entry whose full data has length
`size` — classifies exactly like the full data that eager extraction and
the lazy content resolver sniff (second conjunct), and the verdict is
binary precisely when that 512-byte slice contains a NUL byte or is not
valid UTF-8, a sequence cut off at byte 512 counting as invalid because
only the truncated slice is decoded (third conjunct). -/
theorem c5_sniff (data : List Nat) :
    isBinaryContent data = isBinaryContent (data.take 512) ∧
    isBinaryContent (data.take (min data.length 512)) = isBinaryContent data ∧
    (isBinaryContent data = true ↔
      (∃ b ∈ data.take 512, b = 0) ∨ utf8Valid (data.take 512) = false) := by
  refine ⟨?_, ?_, ?_⟩
  · show isBinaryContent data = isBinaryContent (data.take 512)
    unfold isBinaryContent
    rw [show binaryCheckSize = 512 from rfl, List.take_take,
      show min 512 512 = 512 from rfl]
  · have hl : data.take (min data.length 512) = data.take 512 := by
      rcases Nat.le_total data.length 512 with hle | hle
      · rw [show min data.length 512 = data.length from by omega, List.take_length,
          List.take_of_length_le hle]
      · rw [show min data.length 512 = 512 from by omega]
    rw [hl]
    unfold isBinaryContent
    rw [show binaryCheckSize = 512 from rfl, List.take_take,
      show min 512 512 = 512 from rfl]
  · unfold isBinaryContent
    rw [show binaryCheckSize = 512 from rfl]
    simp only [Bool.or_eq_true, List.any_eq_true, beq_iff_eq, Bool.not_eq_true']

/-- C8 (confirmed): whenever a bookkeeping drain fails against the
underlying stream — the full drain of an oversized entry, or the
remainder drain after probing a within-threshold entry — the whole parse
or index operation returns an error instead of silently producing a
result.  (In the code the `io.Copy` return value is discarded, but the tar
reader latches the read error and the next `Next` call surfaces it; both
paths land in the single rejected-promise error channel.) -/
theorem c8_drain_error (fuel pad pos : Nat) (s : List Nat) (h : Hdr)
    (rest : List Nat) (hpad : pad ≤ s.length)
    (hnx : nextHeader (s.drop pad) = .entry h rest)
    (hflag : h.typeflag = 0x30) (htrunc : rest.length < h.size) :
    parseTarF (fuel + 1) none pad s = .error .shortRead ∧
    indexTgzF (fuel + 1) none pad pos s = .error .shortRead := by
  by_cases hsz : maxFileContentSize < h.size
  · exact ⟨parseTarF_step_big_short fuel pad s h rest hpad hnx hflag hsz htrunc,
      indexTgzF_step_big_short fuel pad pos s h rest hpad hnx hflag hsz htrunc⟩
  · push_neg at hsz
    refine ⟨parseTarF_step_small_short fuel pad s h rest hpad hnx hflag hsz htrunc, ?_⟩
    by_cases hpr : rest.length < min h.size binaryCheckSize
    · exact indexTgzF_step_small_probe_short fuel pad pos s h rest hpad hnx hflag hsz hpr
    · push_neg at hpr
      exact indexTgzF_step_small_drain_short fuel pad pos s h rest hpad hnx hflag hsz hpr htrunc

/-- C8 witness: a 600000-byte entry truncated after 100 bytes makes both
the eager parse and the lazy index fail, and a 1000-byte entry truncated
after 600 bytes (probe succeeds, drain fails) makes the lazy index fail. -/
theorem c8_drain_error_w :
    parseTar archTrunc1 = .error .shortRead ∧
    indexTgzStream archTrunc1 = .error .shortRead ∧
    indexTgzStream archTrunc2 = .error .shortRead := by
  have h1 := c8_drain_error archTrunc1.length 0 0 archTrunc1
    ⟨[0x62], 600000, 0x30⟩ (List.replicate 100 65) (by omega) (by decide)
    rfl (by decide)
  have h2 := c8_drain_error archTrunc2.length 0 0 archTrunc2
    ⟨[0x62], 513, 0x30⟩ (List.replicate 512 65) (by omega) (by decide)
    rfl (by decide)
  exact ⟨h1.1, h1.2, h2.2⟩

/-- C4 (confirmed): at any point of either per-entry loop, a regular-file
entry of exactly 512 KiB takes the content-read path — its bytes are read
in full and only the binary sniff decides its flag and content — while an
entry of 512 KiB + 1 bytes or more is recorded as binary with empty
content in eager mode and binary in the index, and in both modes its data
is consumed in full without being stored (both loops continue from
`rest.drop h.size`, and the eager record carries no bytes). -/
theorem c4_threshold (fuel pad pos : Nat) (s : List Nat) (h : Hdr)
    (rest : List Nat) (hpad : pad ≤ s.length)
    (hnx : nextHeader (s.drop pad) = .entry h rest)
    (hflag : h.typeflag = 0x30) (hlen : h.size ≤ rest.length) :
    (h.size = 524288 →
      h.size ≤ maxFileContentSize ∧
      parseTarF (fuel + 1) none pad s =
        (parseTarF fuel none (dataPad h.size - h.size) (rest.drop h.size)).map
          (fun fs =>
            (if isBinaryContent (rest.take h.size) then
              (⟨h.name, h.size, false, [], true⟩ : ParsedFile)
            else ⟨h.name, h.size, false, rest.take h.size, false⟩) :: fs) ∧
      indexTgzF (fuel + 1) none pad pos s =
        (indexTgzF fuel none (dataPad h.size - h.size) (pos + pad + 512 + h.size)
            (rest.drop h.size)).map
          (fun r => (⟨h.name, h.size, false,
              isBinaryContent (rest.take (min h.size binaryCheckSize)),
              pos + pad + 512⟩ :: r.1,
            s.take pad ++ (s.drop pad).take 512 ++ rest.take h.size ++ r.2))) ∧
    (524288 < h.size →
      maxFileContentSize < h.size ∧
      parseTarF (fuel + 1) none pad s =
        (parseTarF fuel none (dataPad h.size - h.size) (rest.drop h.size)).map
          (fun fs => (⟨h.name, h.size, false, [], true⟩ : ParsedFile) :: fs) ∧
      indexTgzF (fuel + 1) none pad pos s =
        (indexTgzF fuel none (dataPad h.size - h.size) (pos + pad + 512 + h.size)
            (rest.drop h.size)).map
          (fun r => (⟨h.name, h.size, false, true, pos + pad + 512⟩ :: r.1,
            s.take pad ++ (s.drop pad).take 512 ++ rest.take h.size ++ r.2))) := by
  have hmax : maxFileContentSize = 524288 := rfl
  constructor
  · intro hexact
    have hsz : h.size ≤ maxFileContentSize := by omega
    exact ⟨hsz, parseTarF_step_small fuel pad s h rest hpad hnx hflag hsz hlen,
      indexTgzF_step_small fuel pad pos s h rest hpad hnx hflag hsz hlen⟩
  · intro hover
    have hsz : maxFileContentSize < h.size := by omega
    exact ⟨hsz, parseTarF_step_big fuel pad s h rest hpad hnx hflag hsz hlen,
      indexTgzF_step_big fuel pad pos s h rest hpad hnx hflag hsz hlen⟩

/-- C4 witness: instantiating the threshold theorem on archives holding one
regular file of exactly 512 KiB (content-read, and its all-ASCII data
sniffs as text) and one of 512 KiB + 1 bytes (binary, empty content) in
both modes. -/
theorem c4_threshold_w :
    isBinaryContent c4data = false ∧
    (parseTarF 1 none 0 c4arch =
      (parseTarF 0 none (dataPad 524288 - 524288) (c4data.drop 524288)).map
        (fun fs =>
          (if isBinaryContent (c4data.take 524288) then
            (⟨[0x67], 524288, false, [], true⟩ : ParsedFile)
          else ⟨[0x67], 524288, false, c4data.take 524288, false⟩) :: fs)) ∧
    (indexTgzF 1 none 0 0 c4arch =
      (indexTgzF 0 none (dataPad 524288 - 524288) (0 + 0 + 512 + 524288)
          (c4data.drop 524288)).map
        (fun r => (⟨[0x67], 524288, false,
            isBinaryContent (c4data.take (min 524288 binaryCheckSize)),
            0 + 0 + 512⟩ :: r.1,
          c4arch.take 0 ++ (c4arch.drop 0).take 512 ++ c4data.take 524288 ++ r.2))) ∧
    (parseTarF 1 none 0 c4archB =
      (parseTarF 0 none (dataPad 524289 - 524289) (c4dataB.drop 524289)).map
        (fun fs => (⟨[0x67], 524289, false, [], true⟩ : ParsedFile) :: fs)) ∧
    (indexTgzF 1 none 0 0 c4archB =
      (indexTgzF 0 none (dataPad 524289 - 524289) (0 + 0 + 512 + 524289)
          (c4dataB.drop 524289)).map
        (fun r => (⟨[0x67], 524289, false, true, 0 + 0 + 512⟩ :: r.1,
          c4archB.take 0 ++ (c4archB.drop 0).take 512 ++ c4dataB.take 524289 ++ r.2))) := by
  have hnx1 : nextHeader (c4arch.drop 0) = .entry ⟨[0x67], 524288, 0x30⟩ c4data := by
    rw [List.drop_zero]
    exact nextHeader_entry_of c4hdr c4data _ (by decide) (by decide) (by decide) (by decide)
  have hnx2 : nextHeader (c4archB.drop 0) = .entry ⟨[0x67], 524289, 0x30⟩ c4dataB := by
    rw [List.drop_zero]
    exact nextHeader_entry_of c4hdrB c4dataB _ (by decide) (by decide) (by decide) (by decide)
  have hlen1 : (524288 : Nat) ≤ c4data.length :=
    le_of_eq (List.length_replicate 524288 65).symm
  have hlen2 : (524289 : Nat) ≤ c4dataB.length :=
    le_of_eq (List.length_replicate 524289 65).symm
  have ha := (c4_threshold 0 0 0 c4arch ⟨[0x67], 524288, 0x30⟩ c4data
    (Nat.zero_le _) hnx1 rfl hlen1).1 rfl
  have hb := (c4_threshold 0 0 0 c4archB ⟨[0x67], 524289, 0x30⟩ c4dataB
    (Nat.zero_le _) hnx2 rfl hlen2).2 (by decide)
  refine ⟨?_, ha.2.1, ha.2.2, hb.2.1, hb.2.2⟩
  have h2 : c4data.take binaryCheckSize = List.replicate 512 65 := by
    rw [show binaryCheckSize = 512 from rfl]
    simp only [c4data, List.take_replicate]
    rfl
  unfold isBinaryContent
  rw [h2]
  decide

theorem indexMaster_top (s : List Nat) (es : List FileIndexEntry) (fwd : List Nat)
    (hidx : indexTgzStream s = .ok (es, fwd)) :
    ∃ files n,
      parseTar s = .ok files ∧
      fwd = s.take n ∧ n ≤ s.length ∧
      aligned s n es files ∧ regChainB 0 es = true := by
  have hidx' : indexTgzF (s.length + 1) none 0 0 (s.drop 0) = .ok (es, fwd) := by
    rwa [List.drop_zero]
  obtain ⟨files, n, hp, hf, _, hn, hal, hch⟩ :=
    indexMaster (s.length + 1) s 0 0 es fwd (by rw [List.drop_zero]; omega) hidx'
  rw [List.drop_zero] at hp hf hn
  rw [Nat.zero_add] at hal
  exact ⟨files, n, hp, hf, hn, hal, hch⟩

/-- C1 (corrected): restricted to regular-file entries — exactly those the
indexing pass assigns an offset to (offset ≠ 0; regular files always
record offset ≥ 512 and nothing else is ever assigned one) — the lazy
round trip is exact: for every such entry the lazy pass classifies as
non-binary, reading `(rawOffset, size)` back against the forwarded stream
returns the same text content and the same binary flag that eager
extraction of the same archive produced for that entry. -/
theorem c1_roundtrip (s : List Nat) (es : List FileIndexEntry) (fwd : List Nat)
    (files : List ParsedFile)
    (hidx : indexTgzStream s = .ok (es, fwd))
    (hpar : parseTar s = .ok files)
    (k : Nat) (hk : k < es.length) (hk2 : k < files.length)
    (hreg : (es.get ⟨k, hk⟩).offset ≠ 0)
    (hbin : (es.get ⟨k, hk⟩).isBinary = false) :
    (es.get ⟨k, hk⟩).isDir = false ∧
    (files.get ⟨k, hk2⟩).isBinary = false ∧
    readFileContent fwd (es.get ⟨k, hk⟩).offset (es.get ⟨k, hk⟩).size =
      ((files.get ⟨k, hk2⟩).content, (files.get ⟨k, hk2⟩).isBinary) := by
  obtain ⟨files2, n, hp, hf, hn, hal, _⟩ := indexMaster_top s es fwd hidx
  rw [hp] at hpar
  have hfe : files2 = files := by injection hpar
  rw [hfe] at hal
  have eo := aligned_get s n es files hal k hk hk2
  obtain ⟨⟨hpath, hsizeq, hdir, hbinq⟩, _, hnz⟩ := eo
  obtain ⟨hdirF, hoff512, hbound, _, hover, hsniff, hcont⟩ := hnz hreg
  have hszle : (es.get ⟨k, hk⟩).size ≤ maxFileContentSize := by
    by_contra hgt
    push_neg at hgt
    have := hover hgt
    rw [hbin] at this
    exact absurd this (by simp)
  have hsn := hsniff hszle
  obtain ⟨hcontent, _⟩ := hcont hbin
  refine ⟨hdirF, by rw [← hbinq, hbin], ?_⟩
  unfold readFileContent
  rw [hf, blobSlice_take_of s n _ _ hbound hn]
  have hbfull : isBinaryContent ((s.drop (es.get ⟨k, hk⟩).offset).take
      (es.get ⟨k, hk⟩).size) = false := by
    rw [isBinaryContent_take512, show (512 : Nat) = binaryCheckSize from rfl, ← hsn]
    exact hbin
  rw [if_neg (by rw [hbfull]; simp)]
  rw [hcontent, ← hbinq, hbin]

/-- C1 witness: the one-file text archive round-trips — the lazy index
records ("a", 2 bytes, offset 512, non-binary), the forwarded stream is
the whole decompressed tar, and resolving (512, 2) against it returns the
text "hi" with binary=false, identical to eager extraction. -/
theorem c1_roundtrip_w :
    indexTgzStream archText = .ok ([⟨[0x61], 2, false, false, 512⟩], archText) ∧
    parseTar archText = .ok [⟨[0x61], 2, false, [0x68, 0x69], false⟩] ∧
    readFileContent archText 512 2 = ([0x68, 0x69], false) := by
  have h1 : indexTgzStream archText = .ok ([⟨[0x61], 2, false, false, 512⟩], archText) := by
    decide
  have h2 : parseTar archText = .ok [⟨[0x61], 2, false, [0x68, 0x69], false⟩] := by
    decide
  refine ⟨h1, h2, ?_⟩
  have h3 := c1_roundtrip archText _ _ _ h1 h2 0 (by decide) (by decide)
    (by decide) (by decide)
  exact h3.2.2

/-- C1 counterexample: on an archive holding one 10-byte entry of unknown
typeflag 0x41 — a non-directory entry that the lazy pass classifies as
non-binary — resolving the recorded (rawOffset, size) = (0, 10) against
the forwarded stream returns the first ten header bytes "abcdefghij" as
text, while eager extraction of the same entry yields empty content: the
round trip as claimed fails for non-regular entries. -/
theorem c1_cex :
    indexTgzStream archAlpha = .ok ([⟨alphaName, 10, false, false, 0⟩], archAlpha) ∧
    parseTar archAlpha = .ok [⟨alphaName, 10, false, [], false⟩] ∧
    readFileContent archAlpha 0 10 = (alphaName, false) ∧
    alphaName ≠ [] := by
  exact ⟨by decide, by decide, by decide, by decide⟩

/-- C6 (confirmed): in any successful lazy indexing run, every
offset-carrying (regular-file) entry's recorded rawOffset points exactly
past its own header inside the forwarded stream: the offset is at least
one header block, the entry's whole data extent lies inside the forwarded
bytes, the 512 forwarded bytes immediately before the offset parse as this
entry's regular-file header, and the bytes of the forwarded stream at
`[offset, offset+size)` agree with the decompressed stream — so the data
block starts at exactly the counter value recorded right after the header
was consumed and before any data byte was read. -/
theorem c6_offsets (s : List Nat) (es : List FileIndexEntry) (fwd : List Nat)
    (hidx : indexTgzStream s = .ok (es, fwd))
    (k : Nat) (hk : k < es.length)
    (hreg : (es.get ⟨k, hk⟩).offset ≠ 0) :
    512 ≤ (es.get ⟨k, hk⟩).offset ∧
    (es.get ⟨k, hk⟩).offset + (es.get ⟨k, hk⟩).size ≤ fwd.length ∧
    parseHeaderBlock ((fwd.drop ((es.get ⟨k, hk⟩).offset - 512)).take 512) =
      some ⟨(es.get ⟨k, hk⟩).path, (es.get ⟨k, hk⟩).size, 0x30⟩ ∧
    (fwd.drop (es.get ⟨k, hk⟩).offset).take (es.get ⟨k, hk⟩).size =
      (s.drop (es.get ⟨k, hk⟩).offset).take (es.get ⟨k, hk⟩).size := by
  obtain ⟨files2, n, hp, hf, hn, hal, _⟩ := indexMaster_top s es fwd hidx
  have hk2 : k < files2.length := by
    rw [← aligned_length s n es files2 hal]
    exact hk
  have eo := aligned_get s n es files2 hal k hk hk2
  obtain ⟨_, _, hnz⟩ := eo
  obtain ⟨_, hoff512, hbound, hhdr, _, _, _⟩ := hnz hreg
  have hfl : fwd.length = n := by
    rw [hf]
    exact length_take_of s n hn
  refine ⟨hoff512, by omega, ?_, ?_⟩
  · rw [hf, take_drop_of_take s n _ 512 (by omega)]
    exact hhdr
  · rw [hf, take_drop_of_take s n _ _ (by omega)]

/-- C6 witness: the single-text-file archive's entry records offset 512,
its data extent [512, 514) lies in the 1024 forwarded bytes, and the
forwarded bytes 0..511 parse as its header. -/
theorem c6_offsets_w :
    indexTgzStream archText6 = .ok ([⟨[0x66], 2, false, false, 512⟩], archText6) ∧
    512 + 2 ≤ archText6.length ∧
    parseHeaderBlock ((archText6.drop (512 - 512)).take 512) =
      some ⟨[0x66], 2, 0x30⟩ := by
  have h1 : indexTgzStream archText6 = .ok ([⟨[0x66], 2, false, false, 512⟩], archText6) := by
    decide
  have h2 := c6_offsets archText6 _ _ h1 0 (by decide) (by decide)
  exact ⟨h1, h2.2.1, h2.2.2.1⟩

/-- C7 (corrected): restricted to the offset-carrying (regular-file)
entries, offsets are strictly ordered by data extent: for regular entries
i < j in archive order, offset(i) + size(i) ≤ offset(j), hence offsets of
regular entries are non-decreasing across the index.  Directory and other
non-regular entries carry the placeholder offset 0, which breaks the
claimed inequality for arbitrary pairs. -/
theorem c7_monotone (s : List Nat) (es : List FileIndexEntry) (fwd : List Nat)
    (hidx : indexTgzStream s = .ok (es, fwd))
    (i j : Nat) (hi : i < es.length) (hj : j < es.length) (hij : i < j)
    (hri : (es.get ⟨i, hi⟩).offset ≠ 0) (hrj : (es.get ⟨j, hj⟩).offset ≠ 0) :
    (es.get ⟨i, hi⟩).offset + (es.get ⟨i, hi⟩).size ≤ (es.get ⟨j, hj⟩).offset := by
  obtain ⟨files2, n, _, _, _, _, hch⟩ := indexMaster_top s es fwd hidx
  exact regChainB_pairwise 0 es hch i j hi hj hij hri hrj

/-- C7 witness: in the archive with two empty regular files, the entries
record offsets 512 and 1024, and 512 + 0 ≤ 1024. -/
theorem c7_monotone_w :
    indexTgzStream archTwoReg =
      .ok ([⟨[0x61], 0, false, false, 512⟩, ⟨[0x62], 0, false, false, 1024⟩],
        archTwoReg) ∧
    512 + 0 ≤ 1024 := by
  have h1 : indexTgzStream archTwoReg =
      .ok ([⟨[0x61], 0, false, false, 512⟩, ⟨[0x62], 0, false, false, 1024⟩],
        archTwoReg) := by decide
  have h2 := c7_monotone archTwoReg _ _ h1 0 1 (by decide) (by decide)
    (by decide) (by decide) (by decide)
  exact ⟨h1, h2⟩

/-- C7 counterexample: the index of the archive holding an empty regular
file followed by a directory is [(offset 512, size 0), (offset 0)]; for
the pair i = 0 < j = 1 the claimed inequality offset(0) + dataLength(0) ≤
offset(1) reads 512 + 0 ≤ 0, which is false, so the claim fails for pairs
involving directory entries. -/
theorem c7_cex :
    indexTgzStream archRegDir =
      .ok ([⟨[0x61], 0, false, false, 512⟩, ⟨[0x64, 0x2f], 0, true, false, 0⟩],
        archRegDir) ∧
    ¬(512 + 0 ≤ 0) := by
  exact ⟨by decide, by decide⟩

/-- C10 (confirmed): zero-byte regular files are always empty text, never
binary: the sniff on an empty byte sequence returns false, every
zero-size non-directory entry is classified non-binary with empty content
by both eager extraction and lazy indexing, and resolving any zero-length
range against the forwarded stream returns empty text with
binary=false. -/
theorem c10_empty (s : List Nat) (es : List FileIndexEntry) (fwd : List Nat)
    (files : List ParsedFile)
    (hidx : indexTgzStream s = .ok (es, fwd))
    (hpar : parseTar s = .ok files) :
    isBinaryContent [] = false ∧
    (∀ k (hk : k < es.length) (hk2 : k < files.length),
      (es.get ⟨k, hk⟩).size = 0 →
        (es.get ⟨k, hk⟩).isBinary = false ∧ (files.get ⟨k, hk2⟩).isBinary = false ∧
        (files.get ⟨k, hk2⟩).content = []) ∧
    (∀ off, readFileContent fwd off 0 = ([], false)) := by
  obtain ⟨files2, n, hp, hf, hn, hal, _⟩ := indexMaster_top s es fwd hidx
  rw [hp] at hpar
  have hfe : files2 = files := by injection hpar
  rw [hfe] at hal
  refine ⟨by decide, ?_, ?_⟩
  · intro k hk hk2 hsz
    have eo := aligned_get s n es files hal k hk hk2
    obtain ⟨⟨_, _, _, hbinq⟩, hzero, hnz⟩ := eo
    by_cases hoff : (es.get ⟨k, hk⟩).offset = 0
    · obtain ⟨hb, hc⟩ := hzero hoff
      exact ⟨hb, by rw [← hbinq, hb], hc⟩
    · obtain ⟨_, _, _, _, _, hsniff, hcont⟩ := hnz hoff
      have hb : (es.get ⟨k, hk⟩).isBinary = false := by
        rw [hsniff (by rw [hsz]; exact Nat.zero_le _), hsz]
        rw [show min 0 binaryCheckSize = 0 from rfl, List.take_zero]
        decide
      obtain ⟨hc, _⟩ := hcont hb
      rw [hsz] at hc
      simp only [List.take_zero] at hc
      exact ⟨hb, by rw [← hbinq, hb], hc⟩
  · intro off
    unfold readFileContent
    have hz : blobSlice fwd off (off + 0) = [] := by
      unfold blobSlice
      rw [show off + 0 = off from rfl]
      simp
    rw [hz]
    rfl

/-- C10 witness: in the archive with an empty regular file and a
directory, the empty file is indexed non-binary at offset 512 and eagerly
extracted as empty text, and a zero-length resolve returns empty text. -/
theorem c10_empty_w :
    indexTgzStream archEmpty =
      .ok ([⟨[0x65], 0, false, false, 512⟩, ⟨[0x64, 0x2f], 0, true, false, 0⟩],
        archEmpty) ∧
    parseTar archEmpty =
      .ok [⟨[0x65], 0, false, [], false⟩, ⟨[0x64, 0x2f], 0, true, [], false⟩] ∧
    readFileContent archEmpty 512 0 = ([], false) := by
  have h1 : indexTgzStream archEmpty =
      .ok ([⟨[0x65], 0, false, false, 512⟩, ⟨[0x64, 0x2f], 0, true, false, 0⟩],
        archEmpty) := by decide
  have h2 : parseTar archEmpty =
      .ok [⟨[0x65], 0, false, [], false⟩, ⟨[0x64, 0x2f], 0, true, [], false⟩] := by
    decide
  have h3 := c10_empty archEmpty _ _ _ h1 h2
  exact ⟨h1, h2, by rw [show (512 : Nat) = 512 + 0 from rfl]; exact h3.2.2 512⟩
